import Mathlib

/-!
Verification development for the Ralph-mode iterative agent-turn controller
of letta-code.

The controller (`handleRalphCommand`, from src/ralph/cli.ts) drives a remote
agent through repeated turns until a completion promise is matched or an
iteration cap is exhausted.  The loop-state manager and the completion
matcher live in src/ralph/mode.ts, which is not part of the sources at hand;
those operations are modelled from the design document (and are consistent
with the repository's unit tests over them), and each such definition is
marked `Modelled from the spec:` in its doc comment.  Everything else is a
direct shallow embedding of src/ralph/cli.ts: external collaborators
(permission arbiter, tool-schema registry, JSON parsing, the platform's
turn stream and retrieval of pending approvals) enter as parameters or as
scripts of values, and the loop is driven by a finite script of turn
results, one per network round-trip.
-/

namespace Ralph

/-! ### String helpers (JavaScript semantics, restricted to ASCII whitespace) -/

/-- Whitespace characters recognised by the model (space, newline, tab, CR). -/
def isWsChar (c : Char) : Bool :=
  c = ' ' || c = '\n' || c = '\t' || c = '\r'

/-- Split a character list into maximal runs of non-whitespace characters.
The accumulator holds the current word reversed. -/
def wordsAux : List Char → List Char → List (List Char)
  | [], acc => if acc.isEmpty then [] else [acc.reverse]
  | c :: rest, acc =>
    if isWsChar c then
      if acc.isEmpty then wordsAux rest [] else acc.reverse :: wordsAux rest []
    else
      wordsAux rest (c :: acc)

/-- Collapse every run of whitespace (including newlines) to a single space
and trim leading/trailing whitespace: the normalization applied to promise
text, i.e. JavaScript text.replace of a whitespace run by a space, then trim. -/
def normalizeWs (s : String) : String :=
  String.mk (List.intercalate [' '] (wordsAux s.data []))

/-- JavaScript String.prototype.trim restricted to the modelled whitespace. -/
def jsTrim (s : String) : String :=
  String.mk (((s.data.dropWhile isWsChar).reverse.dropWhile isWsChar).reverse)

/-- Lower-case a character list (JavaScript toLowerCase on the modelled
alphabet). -/
def lowerChars (l : List Char) : List Char := l.map Char.toLower

/-- Lower-case a string. -/
def lowerStr (s : String) : String := String.mk (lowerChars s.data)

/-- Index of the first occurrence of `needle` as a contiguous sublist of the
haystack, scanning left to right (JavaScript String.prototype.indexOf /
leftmost regex match). -/
def findSub (needle : List Char) : List Char → Option Nat
  | [] => if needle.isPrefixOf ([] : List Char) then some 0 else none
  | c :: t =>
    if needle.isPrefixOf (c :: t) then some 0
    else (findSub needle t).map (· + 1)

/-! ### The loop-state manager (src/ralph/mode.ts, modelled from the spec) -/

/-- Modelled from the spec: the RalphState record of src/ralph/mode.ts
(§3 LoopState): activation flag, unrestricted/yolo flag, original task,
normalized completion phrase (none = no completion check), iteration cap
(`<= 0` means unbounded) and current iteration counter. -/
structure RalphState where
  isActive : Bool
  isYolo : Bool
  originalPrompt : String
  completionPromise : Option String
  maxIterations : Int
  currentIteration : Int
deriving DecidableEq, Repr

/-- Modelled from the spec: the deactivated zero state (§3: activation
overwrites all fields; deactivation resets every field to its zero value). -/
def RalphState.deactivated : RalphState :=
  { isActive := false, isYolo := false, originalPrompt := ""
    completionPromise := none, maxIterations := 0, currentIteration := 0 }

/-- The caller-facing promise argument of `handleRalphCommand`
(string | null | undefined): undefined means use the default promise,
null means no completion check. -/
inductive PromiseArg
  | undef
  | null
  | str (s : String)
deriving DecidableEq, Repr

/-- Modelled from the spec: the built-in default completion promise of
src/ralph/mode.ts (§8 Scenario A: non-null, non-empty, contains at least
the substrings "task is complete" and "requirements"; the unit tests also
require "production-ready"). -/
def DEFAULT_COMPLETION_PROMISE : String :=
  "The task is complete: all requirements have been implemented and verified, and the code is production-ready."

/-- Modelled from the spec: how activation resolves the promise argument
(§3: undefined = use default, null = no check; the empty string or the
literal case-insensitive token "none" collapse to null; any other string is
stored; the unit tests pin that a whitespace-only string is stored as-is). -/
def resolvePromise : PromiseArg → Option String
  | .undef => some DEFAULT_COMPLETION_PROMISE
  | .null => none
  | .str s => if s = "" || lowerStr s = "none" then none else some s

/-- Modelled from the spec: ralphMode.activate (§4.1): overwrites every
field, sets the iteration counter to 1. -/
def activate (prompt : String) (promiseArg : PromiseArg) (maxIterations : Int)
    (isYolo : Bool) : RalphState :=
  { isActive := true, isYolo := isYolo, originalPrompt := prompt
    completionPromise := resolvePromise promiseArg
    maxIterations := maxIterations, currentIteration := 1 }

/-- Modelled from the spec: ralphMode.deactivate (§4.1): resets every field
to its zero value, idempotently. -/
def deactivate (_ : RalphState) : RalphState := RalphState.deactivated

/-- Modelled from the spec: ralphMode.incrementIteration (§4.1 advance):
increment-only, total, permitted also while inactive. -/
def incrementIteration (s : RalphState) : RalphState :=
  { s with currentIteration := s.currentIteration + 1 }

/-- Modelled from the spec: ralphMode.shouldContinue (§3 invariant): the
loop continues iff active and (cap `<= 0` or counter `<` cap). -/
def shouldContinue (s : RalphState) : Bool :=
  s.isActive && (decide (s.maxIterations ≤ 0) || decide (s.currentIteration < s.maxIterations))

/-! ### The completion matcher (src/ralph/mode.ts, modelled from the spec) -/

/-- The opening tag scanned for, lower case. -/
def openTagL : List Char := "<promise>".data

/-- The closing tag scanned for, lower case. -/
def closeTagL : List Char := "</promise>".data

/-- Modelled from the spec: the scan of §4.2: find the first occurrence of
the literal opening tag (case-insensitively), then the first occurrence of
the closing tag after it, and return the text in between (from the original,
non-lowercased text); none when either tag is absent.  An attributed or
self-closing form never contains the literal tag and therefore never
matches. -/
def extractPromiseContent (text : String) : Option String :=
  let hayL := lowerChars text.data
  match findSub openTagL hayL with
  | none => none
  | some i =>
    let start := i + openTagL.length
    match findSub closeTagL (hayL.drop start) with
    | none => none
    | some j => some (String.mk ((text.data.drop start).take j))

/-- Modelled from the spec: CompletionMatcher.matches (§4.2): false on a
null target; otherwise extract the first tag pair's content and compare it,
whitespace-normalized, case-sensitively against the whitespace-normalized
target. -/
def matchesPromise (target : Option String) (text : String) : Bool :=
  match target with
  | none => false
  | some t =>
    match extractPromiseContent text with
    | none => false
    | some content => normalizeWs content == normalizeWs t

/-- Modelled from the spec: ralphMode.checkForPromise: the matcher applied
to the stored completion promise. -/
def checkForPromise (s : RalphState) (text : String) : Bool :=
  matchesPromise s.completionPromise text

/-! ### Data crossing the controller boundary (src/ralph/cli.ts) -/

/-- A pending tool-call approval as reported by the platform when a turn
stops for arbitration (fields as destructured in src/ralph/cli.ts). -/
structure PendingApproval where
  toolCallId : String
  toolName : String
  toolArgs : String
deriving DecidableEq, Repr

/-- The stop reason of a drained turn, as the controller classifies it:
"end_turn", "requires_approval", or anything else (error, llm_api_error,
unexpected reasons). -/
inductive StopReason
  | endTurn
  | requiresApproval
  | other (reason : String)
deriving DecidableEq, Repr

/-- One typed output line of the stream accumulator, as far as the
controller inspects it: an assistant text line, an error line, or any
other kind. -/
inductive Line
  | assistant (text : String)
  | errorLine (text : String)
  | otherLine
deriving DecidableEq, Repr

/-- The combined result of draining one turn with resume: the accumulated
lines, the stop reason, and the approval batch (populated on a
requires-approval stop). -/
structure TurnResult where
  lines : List Line
  stopReason : StopReason
  approvals : List PendingApproval
deriving DecidableEq, Repr

/-- The predicate of the find over the reversed line buffer in
src/ralph/cli.ts: an assistant line whose text has non-zero length after
trimming. -/
def isNonBlankAssistant : Line → Bool
  | .assistant t => jsTrim t != ""
  | .errorLine _ => false
  | .otherLine => false

/-- The last assistant-authored line with non-blank text, searching the
accumulated buffer from the end (the reverse-then-find of
src/ralph/cli.ts), or none. -/
def lastAssistantText (lines : List Line) : Option String :=
  match lines.reverse.find? isNonBlankAssistant with
  | some (.assistant t) => some t
  | _ => none

/-! ### Approval arbitration (the decisions loop of src/ralph/cli.ts) -/

/-- Whether a parsed JSON argument value is null (only null-ness is
inspected by the controller). -/
inductive JVal
  | null
  | nonNull
deriving DecidableEq, Repr

/-- A parsed JSON argument object: keys with their (null or non-null)
values. -/
abbrev ArgMap := List (String × JVal)

/-- The decision field of checkToolPermission's result. -/
inductive PermDecision
  | allow
  | deny
  | ask
deriving DecidableEq, Repr

/-- The result of checkToolPermission (src/tools/manager, an external
collaborator): a decision plus optional matchedRule and reason strings. -/
structure PermissionResult where
  decision : PermDecision
  matchedRule : Option String
  reason : Option String
deriving DecidableEq, Repr

/-- The external collaborators of the controller: the permission arbiter,
the tool-schema registry's required-argument lookup
(`getToolSchema(toolName)?.input_schema?.required || []`), and JSON
parsing (`safeJsonParse`: none on parse failure). -/
structure Env where
  checkToolPermission : String → ArgMap → PermissionResult
  requiredArgsOf : String → List String
  parseJson : String → Option ArgMap

/-- An arbitration decision: approve, or deny with a reason. -/
inductive Decision
  | approve (approval : PendingApproval)
  | deny (approval : PendingApproval) (reason : String)
deriving DecidableEq, Repr

/-- JavaScript truthiness of an optional string (absent and empty are
falsy). -/
def jsTruthy : Option String → Bool
  | some s => s != ""
  | none => false

/-- The string interpolation of `a || b` in a template literal: the first
truthy value, an absent second operand rendering as "undefined". -/
def jsOrDisplay (a b : Option String) : String :=
  if jsTruthy a then a.getD ""
  else
    match b with
    | some s => s
    | none => "undefined"

/-- Whether a required key is missing from the parsed arguments:
`!(key in parsedArgs) || parsedArgs[key] == null`. -/
def argIsMissing (args : ArgMap) (key : String) : Bool :=
  match args.lookup key with
  | none => true
  | some .null => true
  | some .nonNull => false

/-- The fixed denial reason used both for the pre-loop clearing of pending
approvals and for an `ask` arbitration outcome. -/
def ralphDenyReason : String := "Tool requires approval (Ralph CLI mode)"

/-- The denial reason for missing required parameters: singular or plural
noun chosen by the count, then the comma-joined missing keys. -/
def missingReason (missing : List String) : String :=
  "Missing required parameter" ++ (if missing.length > 1 then "s" else "") ++
    ": " ++ String.intercalate ", " missing

/-- The per-approval decision of the decisions loop in src/ralph/cli.ts,
for already-parsed arguments: deny on a `deny` or `ask` permission
decision (with the permission-denied resp. fixed requires-approval
reason), else deny when required arguments are missing, else approve. -/
def decideWithArgs (env : Env) (a : PendingApproval) (parsedArgs : ArgMap) : Decision :=
  let permission := env.checkToolPermission a.toolName parsedArgs
  match permission.decision with
  | .deny =>
    .deny a ("Permission denied: " ++ jsOrDisplay permission.matchedRule permission.reason)
  | .ask => .deny a ralphDenyReason
  | .allow =>
    let required := env.requiredArgsOf a.toolName
    let missing := required.filter (fun key => argIsMissing parsedArgs key)
    if missing.length > 0 then .deny a (missingReason missing)
    else .approve a

/-- The per-approval decision including the JSON parse of rawArguments
(safeJsonParseOr with an empty object as fallback: the empty map on parse
failure). -/
def decideApproval (env : Env) (a : PendingApproval) : Decision :=
  decideWithArgs env a ((env.parseJson a.toolArgs).getD [])

/-- The full decisions loop: one decision per pending approval, in input
order. -/
def resolveApprovals (env : Env) (approvals : List PendingApproval) : List Decision :=
  approvals.map (decideApproval env)

/-! ### Reminder messages (src/ralph/cli.ts) -/

/-- The 59-character separator line of the first-turn reminder. -/
def barLine : String := String.mk (List.replicate 59 '═')

/-- The iteration display: "current/max" under a positive cap, else just
the current iteration. -/
def iterInfo (state : RalphState) : String :=
  if state.maxIterations > 0 then
    toString state.currentIteration ++ "/" ++ toString state.maxIterations
  else
    toString state.currentIteration

/-- buildRalphFirstTurnReminder of src/ralph/cli.ts. -/
def buildRalphFirstTurnReminder (state : RalphState) : String :=
  let reminder := "<system-reminder>\n🔄 Ralph Wiggum mode activated (iteration " ++
    iterInfo state ++ ")\n"
  let reminder := reminder ++
    (match state.completionPromise with
     | some p =>
       "\n" ++ barLine ++ "\nRALPH LOOP COMPLETION PROMISE\n" ++ barLine ++
       "\n\nTo complete this loop, output this EXACT text:\n  <promise>" ++ p ++
       "</promise>\n\nSTRICT REQUIREMENTS (DO NOT VIOLATE):\n  ✓ Use <promise> XML tags EXACTLY as shown above\n  ✓ The statement MUST be completely and unequivocally TRUE\n  ✓ Do NOT output false statements to exit the loop\n  ✓ Do NOT lie even if you think you should exit\n\nIMPORTANT - Do not circumvent the loop:\n  Even if you believe you're stuck, the task is impossible,\n  or you've been running too long - you MUST NOT output a\n  false promise statement. The loop is designed to continue\n  until the promise is GENUINELY TRUE. Trust the process.\n\n  If the loop should stop, the promise statement will become\n  true naturally. Do not force it by lying.\n" ++ barLine ++ "\n"
     | none =>
       "\nNo completion promise set - loop runs until --max-iterations or interrupted.\n")
  reminder ++ "</system-reminder>"

/-- buildRalphContinuationReminder of src/ralph/cli.ts. -/
def buildRalphContinuationReminder (state : RalphState) : String :=
  "<system-reminder>\n🔄 Ralph Wiggum mode continuation (iteration " ++ iterInfo state ++
    ")\n\nThe previous work is preserved in files and git history.\nContinue where you left off, building on what you've already done.\n</system-reminder>"

/-! ### The main loop (src/ralph/cli.ts) -/

/-- The input of one turn: a user message (initial task or continuation
reminder plus task), or the approval-result batch of the previous turn.
Execution of approved tool calls is an external collaborator, so the
approval-result batch is represented by the arbitrated decisions it was
built from. -/
inductive TurnInput
  | userMsg (text : String)
  | approvalResults (decisions : List Decision)
deriving DecidableEq, Repr

/-- What one pass through the loop body does: return an exit code, or
continue with a (possibly updated) state and the next turn's input. -/
inductive StepOutcome
  | exit (code : Int)
  | continueWith (s : RalphState) (next : TurnInput)
deriving DecidableEq, Repr

/-- Whether the drained turn's last non-blank assistant text matches the
completion promise (the promise check at the top of the loop body). -/
def turnMatches (s : RalphState) (r : TurnResult) : Bool :=
  match lastAssistantText r.lines with
  | some t => checkForPromise s t
  | none => false

/-- One pass through the loop body of handleRalphCommand, after the turn's
stream has been drained to `r`: check the promise first (exit 0 on a
match), then a requires-approval stop (exit 2 on an empty batch, else
arbitrate and continue with the approval results, iteration counter
untouched), then end-turn (increment the iteration and continue with the
continuation reminder plus the original prompt), else exit 2. -/
def loopStep (env : Env) (prompt : String) (s : RalphState) (r : TurnResult) : StepOutcome :=
  if turnMatches s r then .exit 0
  else
    match r.stopReason with
    | .requiresApproval =>
      if r.approvals.isEmpty then .exit 2
      else .continueWith s (.approvalResults (resolveApprovals env r.approvals))
    | .endTurn =>
      let newState := incrementIteration s
      .continueWith newState
        (.userMsg (buildRalphContinuationReminder newState ++ "\n\n" ++ prompt))
    | .other _ => .exit 2

/-- An observable interaction of the run with the platform: a batch of
denials sent to clear pre-existing pending approvals, or the sending of a
turn's input. -/
inductive Event
  | denyPendingBatch (decisions : List Decision)
  | send (input : TurnInput)
deriving DecidableEq, Repr

/-- How a run ends: an exit code together with the loop state at the
moment of return (src/ralph/cli.ts returns without touching the state), or
exhaustion of the finite turn script while the loop would still continue. -/
inductive RunOutcome
  | exited (code : Int) (finalState : RalphState)
  | scriptExhausted (s : RalphState) (pending : TurnInput)
deriving DecidableEq, Repr

/-- The while-loop of handleRalphCommand, driven by a finite script of
drained turn results (one per network round-trip): while shouldContinue,
send the current input, drain the scripted result and take one loop step;
when shouldContinue fails, return exit code 1 (max iterations reached). -/
def runLoop (env : Env) (prompt : String) :
    RalphState → TurnInput → List TurnResult → List Event × RunOutcome
  | s, inp, script =>
    if shouldContinue s then
      match script with
      | [] => ([], .scriptExhausted s inp)
      | r :: rest =>
        match loopStep env prompt s r with
        | .exit c => ([Event.send inp], .exited c s)
        | .continueWith s' inp' =>
          let res := runLoop env prompt s' inp' rest
          (Event.send inp :: res.1, res.2)
    else ([], .exited 1 s)

/-- The denial batch built for pre-existing pending approvals: every
approval denied with the fixed Ralph CLI reason. -/
def denyAllPending (batch : List PendingApproval) : List Decision :=
  batch.map (fun a => Decision.deny a ralphDenyReason)

/-- The pre-loop clearing of pending approvals, driven by the script of
successive getResumeData retrievals: retrieve a batch; stop on an empty
one; otherwise deny the whole batch and send the denials, then retrieve
again.  Returns the denial batches sent, in order. -/
def clearPendingLoop : List (List PendingApproval) → List (List Decision)
  | [] => []
  | batch :: rest =>
    if batch.isEmpty then []
    else denyAllPending batch :: clearPendingLoop rest

/-- handleRalphCommand of src/ralph/cli.ts, shallowly embedded: activate
Ralph mode, clear pre-existing pending approvals (denying every batch),
then run the main loop starting from the first-turn reminder plus the
prompt.  Agent creation, settings and skills setup are external
collaborators with no effect on the modelled state.  Returns the event
trace and the outcome. -/
def handleRalphCommand (env : Env) (prompt : String) (promiseArg : PromiseArg)
    (maxIterations : Int) (isYolo : Bool)
    (pendingScript : List (List PendingApproval)) (turnScript : List TurnResult) :
    List Event × RunOutcome :=
  let ralphState := activate prompt promiseArg maxIterations isYolo
  let denialBatches := clearPendingLoop pendingScript
  let messageContent := buildRalphFirstTurnReminder ralphState ++ "\n\n" ++ prompt
  let res := runLoop env prompt ralphState (.userMsg messageContent) turnScript
  (denialBatches.map Event.denyPendingBatch ++ res.1, res.2)

/-! ### Auxiliary definitions for the statements below -/

/-- Iterated incrementIteration. -/
def advanceN : Nat → RalphState → RalphState
  | 0, s => s
  | n + 1, s => advanceN n (incrementIteration s)

/-- Whether an event is the sending of a turn's input. -/
def isSendEvent : Event → Bool
  | .send _ => true
  | .denyPendingBatch _ => false

/-- A permission environment that allows every tool, requires no arguments
and fails every JSON parse. -/
def envAllow : Env :=
  { checkToolPermission := fun _ _ => { decision := .allow, matchedRule := none, reason := none }
    requiredArgsOf := fun _ => []
    parseJson := fun _ => none }

/-- An environment that allows every tool but declares "path" as required
while parsing every raw-argument string to the empty object. -/
def envMissing : Env :=
  { checkToolPermission := fun _ _ => { decision := .allow, matchedRule := none, reason := none }
    requiredArgsOf := fun _ => ["path"]
    parseJson := fun _ => some [] }

/-- An environment whose permission arbiter answers ask for every tool. -/
def envAsk : Env :=
  { checkToolPermission := fun _ _ => { decision := .ask, matchedRule := none, reason := none }
    requiredArgsOf := fun _ => []
    parseJson := fun _ => none }

/-- A concrete pending approval for a write_file call with empty raw
arguments. -/
def approvalW : PendingApproval :=
  { toolCallId := "call-1", toolName := "write_file", toolArgs := "" }

/-- A turn that ends normally with non-matching assistant text. -/
def rEnd : TurnResult :=
  { lines := [Line.assistant "working on it"], stopReason := .endTurn, approvals := [] }

/-- A turn whose assistant text declares the promise DONE and then ends. -/
def rDone : TurnResult :=
  { lines := [Line.assistant "<promise>DONE</promise>"], stopReason := .endTurn, approvals := [] }

/-! ### Helper lemmas -/

/-- Incrementing the iteration does not change the promise check. -/
theorem turnMatches_incrementIteration (s : RalphState) (r : TurnResult) :
    turnMatches (incrementIteration s) r = turnMatches s r := rfl

/-- advanceN preserves the activation flag and the iteration cap. -/
theorem advanceN_preserves (n : Nat) :
    ∀ s : RalphState, (advanceN n s).isActive = s.isActive ∧
      (advanceN n s).maxIterations = s.maxIterations := by
  induction n with
  | zero => intro s; exact ⟨rfl, rfl⟩
  | succ k ih => intro s; simpa [advanceN, incrementIteration] using ih (incrementIteration s)

/-- A successful find? splits the list, with the predicate failing on
everything before the hit. -/
theorem find?_split {α : Type} (p : α → Bool) :
    ∀ (l : List α) (a : α), l.find? p = some a →
      ∃ u v, l = u ++ a :: v ∧ (∀ x ∈ u, p x = false) ∧ p a = true := by
  intro l
  induction l with
  | nil => intro a h; simp [List.find?] at h
  | cons x xs ih =>
    intro a h
    by_cases hx : p x = true
    · rw [List.find?_cons_of_pos _ hx] at h
      obtain rfl : x = a := by injection h
      exact ⟨[], xs, rfl, by simp, hx⟩
    · rw [List.find?_cons_of_neg _ (by simpa using hx)] at h
      obtain ⟨u, v, rfl, hu, ha⟩ := ih a h
      refine ⟨x :: u, v, rfl, ?_, ha⟩
      intro y hy
      rcases List.mem_cons.mp hy with rfl | hy
      · simpa using hx
      · exact hu y hy

/-- The two ways loopStep can decide to continue: an approval round-trip
(state untouched, next input the arbitrated batch) or an end-turn
(iteration incremented, next input the continuation reminder plus the
original prompt). -/
theorem loopStep_continue_cases (env : Env) (prompt : String) (s : RalphState)
    (r : TurnResult) (s' : RalphState) (inp' : TurnInput)
    (h : loopStep env prompt s r = .continueWith s' inp') :
    (r.stopReason = .requiresApproval ∧ s' = s ∧
      inp' = .approvalResults (resolveApprovals env r.approvals)) ∨
    (r.stopReason = .endTurn ∧ s' = incrementIteration s ∧
      inp' = .userMsg (buildRalphContinuationReminder (incrementIteration s) ++ "\n\n" ++ prompt)) := by
  by_cases hm : turnMatches s r = true
  · simp [loopStep, hm] at h
  · cases hstop : r.stopReason with
    | endTurn =>
      right
      simp only [loopStep, hm, if_false, Bool.not_eq_true] at h
      rw [hstop] at h
      obtain ⟨hs, hi⟩ := StepOutcome.continueWith.inj h
      exact ⟨rfl, hs.symm, hi.symm⟩
    | requiresApproval =>
      left
      simp only [loopStep, hm, if_false, Bool.not_eq_true] at h
      rw [hstop] at h
      by_cases he : r.approvals.isEmpty = true
      · simp [he] at h
      · simp only [he, if_false, Bool.not_eq_true] at h
        obtain ⟨hs, hi⟩ := StepOutcome.continueWith.inj h
        exact ⟨rfl, hs.symm, hi.symm⟩
    | other reason =>
      simp only [loopStep, hm, if_false, Bool.not_eq_true] at h
      rw [hstop] at h
      cases h

/-- Whenever the scripted loop returns an exit code, the state it returns
is still active (the loop never deactivates it), provided it started
active. -/
theorem runLoop_exited_active :
    ∀ (ts : List TurnResult) (env : Env) (prompt : String) (s : RalphState)
      (inp : TurnInput), s.isActive = true →
      ∀ (code : Int) (fs : RalphState),
        (runLoop env prompt s inp ts).2 = .exited code fs → fs.isActive = true := by
  intro ts
  induction ts with
  | nil =>
    intro env prompt s inp hs code fs h
    by_cases hc : shouldContinue s = true
    · simp [runLoop, hc] at h
    · simp only [runLoop, hc, if_false, Bool.not_eq_true] at h
      obtain ⟨-, rfl⟩ := RunOutcome.exited.inj h
      exact hs
  | cons r rest ih =>
    intro env prompt s inp hs code fs h
    by_cases hc : shouldContinue s = true
    · simp only [runLoop, hc, if_true] at h
      cases hstep : loopStep env prompt s r with
      | exit c =>
        rw [hstep] at h
        obtain ⟨-, rfl⟩ := RunOutcome.exited.inj h
        exact hs
      | continueWith s' inp' =>
        rw [hstep] at h
        have hs' : s'.isActive = true := by
          rcases loopStep_continue_cases env prompt s r s' inp' hstep with
            ⟨-, rfl, -⟩ | ⟨-, rfl, -⟩
          · exact hs
          · exact hs
        exact ih env prompt s' inp' hs' code fs h
    · simp only [runLoop, hc, if_false, Bool.not_eq_true] at h
      obtain ⟨-, rfl⟩ := RunOutcome.exited.inj h
      exact hs

/-- The clearing loop denies exactly the longest prefix of non-empty
pending batches, one denial batch per retrieval. -/
theorem clearPendingLoop_eq (ps : List (List PendingApproval)) :
    clearPendingLoop ps = (ps.takeWhile (fun b => !b.isEmpty)).map denyAllPending := by
  induction ps with
  | nil => rfl
  | cons b rest ih =>
    by_cases hb : b.isEmpty = true
    · simp [clearPendingLoop, hb, List.takeWhile_cons, ih]
    · simp only [Bool.not_eq_true] at hb
      simp [clearPendingLoop, hb, List.takeWhile_cons, ih]

/-- Every event emitted by the main loop is the sending of a turn input. -/
theorem runLoop_all_send :
    ∀ (ts : List TurnResult) (env : Env) (prompt : String) (s : RalphState)
      (inp : TurnInput), (runLoop env prompt s inp ts).1.all isSendEvent = true := by
  intro ts
  induction ts with
  | nil =>
    intro env prompt s inp
    by_cases hc : shouldContinue s = true <;> simp [runLoop, hc]
  | cons r rest ih =>
    intro env prompt s inp
    by_cases hc : shouldContinue s = true
    · simp only [runLoop, hc, if_true]
      cases hstep : loopStep env prompt s r with
      | exit c => simp [isSendEvent]
      | continueWith s' inp' => simp [isSendEvent, ih]
    · simp [runLoop, hc]

/-- Rebuilding a string from its character data is the identity. -/
theorem strMk_data (s : String) : String.mk s.data = s := by cases s; rfl

/-- String concatenation concatenates the character data. -/
theorem strData_append (a b : String) : (a ++ b).data = a.data ++ b.data := by
  cases a; cases b; rfl

/-- A list is a Boolean prefix of itself followed by anything. -/
theorem isPrefixOf_append_self : ∀ (l t : List Char), l.isPrefixOf (l ++ t) = true := by
  intro l
  induction l with
  | nil => intro t; cases t <;> rfl
  | cons a as ih =>
    intro t
    simp only [List.cons_append, List.isPrefixOf, beq_self_eq_true, Bool.true_and]
    exact ih t

/-- A Boolean prefix yields a decomposition of the larger list. -/
theorem eq_append_of_isPrefixOf :
    ∀ (l₁ l₂ : List Char), l₁.isPrefixOf l₂ = true → ∃ t, l₂ = l₁ ++ t := by
  intro l₁
  induction l₁ with
  | nil => intro l₂ _; exact ⟨l₂, rfl⟩
  | cons a as ih =>
    intro l₂ h
    cases l₂ with
    | nil => simp [List.isPrefixOf] at h
    | cons b bs =>
      simp only [List.isPrefixOf, Bool.and_eq_true, beq_iff_eq] at h
      obtain ⟨rfl, h2⟩ := h
      obtain ⟨t, rfl⟩ := ih bs h2
      exact ⟨t, rfl⟩

/-- The scan finds an occurrence at position 0 when the needle is a prefix. -/
theorem findSub_of_prefixAtZero (needle hay : List Char)
    (h : needle.isPrefixOf hay = true) : findSub needle hay = some 0 := by
  cases hay with
  | nil => simp only [findSub, h, if_true]
  | cons c t => simp only [findSub, h, if_true]

/-- The closing tag has ten characters. -/
theorem closeTagL_len : closeTagL.length = 10 := by decide

/-- The closing tag cannot start strictly inside a copy of itself glued
after other text: an occurrence touching the final copy starts exactly at
the copy (the tag has no non-trivial border, since the character before
the slash appears nowhere else in it). -/
theorem close_no_straddle (l : List Char)
    (h : closeTagL.isPrefixOf (l ++ closeTagL) = true) :
    l = [] ∨ closeTagL.isPrefixOf l = true := by
  obtain ⟨t, ht⟩ := eq_append_of_isPrefixOf _ _ h
  by_cases hlen : closeTagL.length ≤ l.length
  · right
    have h10 : (l ++ closeTagL).take closeTagL.length = closeTagL := by
      rw [ht]; exact List.take_left _ _
    have h11 : (l ++ closeTagL).take closeTagL.length = l.take closeTagL.length :=
      List.take_append_of_le_length hlen
    have h12 : l.take closeTagL.length = closeTagL := by rw [← h11, h10]
    have h13 : l = closeTagL ++ l.drop closeTagL.length := by
      conv_lhs => rw [← List.take_append_drop closeTagL.length l]
      rw [h12]
    rw [h13]
    exact isPrefixOf_append_self _ _
  · cases l with
    | nil => exact Or.inl rfl
    | cons x xs =>
      exfalso
      push_neg at hlen
      have hA : ((x :: xs) ++ closeTagL).take closeTagL.length = closeTagL := by
        rw [ht]; exact List.take_left _ _
      have hsplit : closeTagL.length =
          (x :: xs).length + (closeTagL.length - (x :: xs).length) := by
        omega
      have hC : closeTagL = (x :: xs) ++ closeTagL.take (closeTagL.length - (x :: xs).length) :=
        calc closeTagL = ((x :: xs) ++ closeTagL).take closeTagL.length := hA.symm
          _ = ((x :: xs) ++ closeTagL).take
              ((x :: xs).length + (closeTagL.length - (x :: xs).length)) := by rw [← hsplit]
          _ = (x :: xs) ++ closeTagL.take (closeTagL.length - (x :: xs).length) :=
            List.take_append _
      have hD : closeTagL.drop (x :: xs).length =
          closeTagL.take (closeTagL.length - (x :: xs).length) := by
        conv_lhs => rw [hC]
        exact List.drop_left _ _
      have hd9 : (x :: xs).length < 10 := by rw [← closeTagL_len]; exact hlen
      have hd1 : 1 ≤ (x :: xs).length := by simp
      rw [closeTagL_len] at hD
      have hcases : (x :: xs).length = 1 ∨ (x :: xs).length = 2 ∨ (x :: xs).length = 3 ∨
          (x :: xs).length = 4 ∨ (x :: xs).length = 5 ∨ (x :: xs).length = 6 ∨
          (x :: xs).length = 7 ∨ (x :: xs).length = 8 ∨ (x :: xs).length = 9 := by
        omega
      rcases hcases with h'|h'|h'|h'|h'|h'|h'|h'|h' <;> rw [h'] at hD <;>
        exact absurd hD (by decide)

/-- When the closing tag does not occur in a list, its first occurrence in
the list followed by the tag itself is exactly at the end of the list. -/
theorem findSub_close_append :
    ∀ xs : List Char, findSub closeTagL xs = none →
      findSub closeTagL (xs ++ closeTagL) = some xs.length := by
  intro xs
  induction xs with
  | nil =>
    intro _
    have h : closeTagL.isPrefixOf ([] ++ closeTagL) = true := isPrefixOf_append_self _ _
    rw [List.nil_append] at h ⊢
    simpa using findSub_of_prefixAtZero _ _ h
  | cons x xs ih =>
    intro h
    have hunfh : findSub closeTagL (x :: xs) =
        if closeTagL.isPrefixOf (x :: xs) then some 0
        else (findSub closeTagL xs).map (· + 1) := rfl
    have hnp : closeTagL.isPrefixOf (x :: xs) = false := by
      cases hpre : closeTagL.isPrefixOf (x :: xs) with
      | false => rfl
      | true => rw [hunfh, hpre, if_pos rfl] at h; cases h
    rw [hunfh, hnp] at h
    simp only [Bool.false_eq_true, if_false, Option.map_eq_none'] at h
    have hnp2 : closeTagL.isPrefixOf (x :: (xs ++ closeTagL)) = false := by
      cases hpre : closeTagL.isPrefixOf (x :: (xs ++ closeTagL)) with
      | false => rfl
      | true =>
        rcases close_no_straddle (x :: xs) hpre with h0 | hp
        · cases h0
        · rw [hp] at hnp; cases hnp
    have hunf2 : findSub closeTagL (x :: (xs ++ closeTagL)) =
        if closeTagL.isPrefixOf (x :: (xs ++ closeTagL)) then some 0
        else (findSub closeTagL (xs ++ closeTagL)).map (· + 1) := rfl
    show findSub closeTagL (x :: (xs ++ closeTagL)) = some (x :: xs).length
    rw [hunf2, hnp2]
    simp only [Bool.false_eq_true, if_false, ih h, Option.map_some', List.length_cons]

/-- Wrapping any text free of the (case-insensitive) closing tag between a
case-variant opening tag and a case-variant closing tag makes extraction
return exactly that text. -/
theorem extract_of_wrapped (pre c suf : String)
    (hpre : lowerChars pre.data = openTagL)
    (hsuf : lowerChars suf.data = closeTagL)
    (hc : findSub closeTagL (lowerChars c.data) = none) :
    extractPromiseContent (pre ++ c ++ suf) = some c := by
  have hdata : (pre ++ c ++ suf).data = pre.data ++ (c.data ++ suf.data) := by
    rw [strData_append, strData_append, List.append_assoc]
  have hlow : lowerChars (pre ++ c ++ suf).data =
      openTagL ++ (lowerChars c.data ++ closeTagL) := by
    rw [hdata]
    simp only [lowerChars] at hpre hsuf ⊢
    rw [List.map_append, List.map_append, hpre, hsuf]
  have hopen : findSub openTagL (lowerChars (pre ++ c ++ suf).data) = some 0 := by
    rw [hlow]; exact findSub_of_prefixAtZero _ _ (isPrefixOf_append_self _ _)
  have hlen9 : pre.data.length = openTagL.length := by
    have h := congrArg List.length hpre
    simpa [lowerChars] using h
  have hdrop : (lowerChars (pre ++ c ++ suf).data).drop (0 + openTagL.length) =
      lowerChars c.data ++ closeTagL := by
    rw [hlow, Nat.zero_add]
    exact List.drop_left _ _
  have hclose : findSub closeTagL
      ((lowerChars (pre ++ c ++ suf).data).drop (0 + openTagL.length)) =
      some (lowerChars c.data).length := by
    rw [hdrop]; exact findSub_close_append _ hc
  have hslice : (((pre ++ c ++ suf).data.drop (0 + openTagL.length)).take
      (lowerChars c.data).length) = c.data := by
    rw [hdata, Nat.zero_add, ← hlen9, List.drop_left]
    have hlenc : (lowerChars c.data).length = c.data.length := by simp [lowerChars]
    rw [hlenc]
    exact List.take_left _ _
  simp only [extractPromiseContent, hopen, hclose, hslice, strMk_data]

/-! ### The claims -/

/-- Claim C3: shouldContinue() returns true iff the state is active and
(iterationCap `<= 0` or currentIteration `<` iterationCap); in particular a
negative cap is treated like zero (unbounded): after activation with any
cap `<= 0`, shouldContinue stays true no matter how often the counter is
advanced. -/
theorem claim_C3 :
    (∀ s : RalphState, shouldContinue s = true ↔
      (s.isActive = true ∧ (s.maxIterations ≤ 0 ∨ s.currentIteration < s.maxIterations)))
    ∧ (∀ (prompt : String) (parg : PromiseArg) (cap : Int) (yolo : Bool), cap ≤ 0 →
        ∀ n : Nat, shouldContinue (advanceN n (activate prompt parg cap yolo)) = true) := by
  constructor
  · intro s
    simp [shouldContinue]
  · intro prompt parg cap yolo hcap n
    obtain ⟨ha, hm⟩ := advanceN_preserves n (activate prompt parg cap yolo)
    simp only [shouldContinue, ha, hm]
    simp [activate, hcap]

/-- Witness for C3: with the negative cap -1 the loop predicate is still
true after five advances. -/
theorem claim_C3_witness :
    shouldContinue (advanceN 5 (activate "t" PromiseArg.undef (-1) false)) = true :=
  claim_C3.2 "t" PromiseArg.undef (-1) false (by norm_num) 5

/-- Claim C7: a requires-approval stop with an empty approval batch makes
the controller return the error exit code 2 at once (no arbitration, no
further turn), given that the turn's text did not match the completion
phrase (the completion check of step b precedes this branch). -/
theorem claim_C7 (env : Env) (prompt : String) (s : RalphState) (r : TurnResult)
    (hm : turnMatches s r = false) (hstop : r.stopReason = .requiresApproval)
    (happ : r.approvals = []) :
    loopStep env prompt s r = .exit 2 := by
  simp [loopStep, hm, hstop, happ]

/-- Witness for C7: a concrete requires-approval turn with an empty batch
exits with code 2. -/
theorem claim_C7_witness :
    loopStep envAllow "t" (activate "t" (PromiseArg.str "DONE") 0 false)
      { lines := [], stopReason := .requiresApproval, approvals := [] } = .exit 2 :=
  claim_C7 envAllow "t" (activate "t" (PromiseArg.str "DONE") 0 false)
    { lines := [], stopReason := .requiresApproval, approvals := [] }
    (by decide) rfl rfl

/-- Claim C8: on a requires-approval stop with a non-empty batch (and no
completion match) the controller continues with the same state — every
loop-state field untouched — and the next input set to the arbitrated
approval-result batch; and whenever the loop continues, the iteration
counter is advanced exactly on the end-turn branch and left unchanged on
the approval branch. -/
theorem claim_C8 :
    (∀ (env : Env) (prompt : String) (s : RalphState) (r : TurnResult),
      turnMatches s r = false → r.stopReason = .requiresApproval → r.approvals ≠ [] →
      loopStep env prompt s r =
        .continueWith s (.approvalResults (resolveApprovals env r.approvals)))
    ∧ (∀ (env : Env) (prompt : String) (s : RalphState) (r : TurnResult)
        (s' : RalphState) (inp' : TurnInput),
      loopStep env prompt s r = .continueWith s' inp' →
      (r.stopReason = .requiresApproval ∧ s' = s) ∨
      (r.stopReason = .endTurn ∧ s' = incrementIteration s)) := by
  constructor
  · intro env prompt s r hm hstop happ
    have he : r.approvals.isEmpty = false := by
      cases h : r.approvals with
      | nil => exact absurd h happ
      | cons a t => simp
    simp [loopStep, hm, hstop, he]
  · intro env prompt s r s' inp' h
    rcases loopStep_continue_cases env prompt s r s' inp' h with ⟨h1, h2, -⟩ | ⟨h1, h2, -⟩
    · exact Or.inl ⟨h1, h2⟩
    · exact Or.inr ⟨h1, h2⟩

/-- Witness for C8: a concrete non-matching requires-approval turn with a
one-element batch continues with the state unchanged and the arbitrated
batch as next input. -/
theorem claim_C8_witness :
    loopStep envAllow "t" (activate "t" (PromiseArg.str "DONE") 0 false)
      { lines := [Line.assistant "need a tool"], stopReason := .requiresApproval,
        approvals := [approvalW] } =
    .continueWith (activate "t" (PromiseArg.str "DONE") 0 false)
      (.approvalResults (resolveApprovals envAllow [approvalW])) :=
  claim_C8.1 envAllow "t" (activate "t" (PromiseArg.str "DONE") 0 false)
    { lines := [Line.assistant "need a tool"], stopReason := .requiresApproval,
      approvals := [approvalW] }
    (by decide) rfl (by decide)

/-- Claim C2: the controller's finalAssistantText is the last assistant
line with non-blank text, searching from the end (none when no such line
exists), and when it matches the completion phrase the loop body returns
exit code 0 before the stop reason is examined — in particular a turn that
both matches and stops with requires-approval ends as Completed. -/
theorem claim_C2 :
    (∀ (env : Env) (prompt : String) (s : RalphState) (r : TurnResult),
      turnMatches s r = true → loopStep env prompt s r = .exit 0)
    ∧ (∀ (lines : List Line) (t : String), lastAssistantText lines = some t →
      ∃ pre post, lines = pre ++ Line.assistant t :: post ∧ jsTrim t ≠ "" ∧
        ∀ l ∈ post, isNonBlankAssistant l = false)
    ∧ (∀ lines : List Line, lastAssistantText lines = none →
      ∀ l ∈ lines, isNonBlankAssistant l = false) := by
  refine ⟨?_, ?_, ?_⟩
  · intro env prompt s r hm
    simp [loopStep, hm]
  · intro lines t h
    unfold lastAssistantText at h
    cases e : lines.reverse.find? isNonBlankAssistant with
    | none => rw [e] at h; cases h
    | some l =>
      rw [e] at h
      have hl : isNonBlankAssistant l = true := List.find?_some e
      cases l with
      | assistant u =>
        obtain rfl : u = t := by injection h
        obtain ⟨v₁, v₂, hrev, hv₁, -⟩ := find?_split isNonBlankAssistant lines.reverse _ e
        refine ⟨v₂.reverse, v₁.reverse, ?_, ?_, ?_⟩
        · have := congrArg List.reverse hrev
          simpa [List.reverse_append] using this
        · simpa [isNonBlankAssistant] using hl
        · intro l hlmem
          exact hv₁ l (List.mem_reverse.mp hlmem)
      | errorLine u => simp [isNonBlankAssistant] at hl
      | otherLine => simp [isNonBlankAssistant] at hl
  · intro lines h l hmem
    unfold lastAssistantText at h
    cases e : lines.reverse.find? isNonBlankAssistant with
    | none =>
      have := List.find?_eq_none.mp e l (List.mem_reverse.mpr hmem)
      simpa using this
    | some l' =>
      have hl : isNonBlankAssistant l' = true := List.find?_some e
      rw [e] at h
      cases l' with
      | assistant u => cases h
      | errorLine u => simp [isNonBlankAssistant] at hl
      | otherLine => simp [isNonBlankAssistant] at hl

/-- Witness for C2: a concrete turn whose text matches the phrase and
which simultaneously stops with requires-approval (non-empty batch) ends
with exit code 0. -/
theorem claim_C2_witness :
    loopStep envAllow "t" (activate "t" (PromiseArg.str "DONE") 0 false)
      { lines := [Line.assistant "<promise>DONE</promise>"],
        stopReason := .requiresApproval, approvals := [approvalW] } = .exit 0 :=
  claim_C2.1 envAllow "t" (activate "t" (PromiseArg.str "DONE") 0 false)
    { lines := [Line.assistant "<promise>DONE</promise>"],
      stopReason := .requiresApproval, approvals := [approvalW] }
    (by decide)

/-- Counterexample to C6 as stated: activating with the whitespace-only
phrase "   " (which is neither the empty string nor "none") stores it as a
non-null completion phrase whose normalization is the empty string — and
the matcher then accepts a whitespace-only tag content, exactly as the
repository's own unit test over this case records. -/
theorem claim_C6_counterexample :
    (activate "task" (PromiseArg.str "   ") 0 false).completionPromise = some "   " ∧
    normalizeWs "   " = "" ∧
    checkForPromise (activate "task" (PromiseArg.str "   ") 0 false)
      "<promise>   </promise>" = true := by
  decide

/-- Claim C6 (amended): activating with the empty string, with null, or
with any string whose lower-casing is "none" yields a null completion
phrase; every other string — including whitespace-only strings whose
normalization is empty — is stored unchanged as a non-null phrase. -/
theorem claim_C6 (prompt : String) (cap : Int) (yolo : Bool) (s : String) :
    ((activate prompt (PromiseArg.str "") cap yolo).completionPromise = none)
    ∧ ((activate prompt PromiseArg.null cap yolo).completionPromise = none)
    ∧ (lowerStr s = "none" →
        (activate prompt (PromiseArg.str s) cap yolo).completionPromise = none)
    ∧ (s ≠ "" → lowerStr s ≠ "none" →
        (activate prompt (PromiseArg.str s) cap yolo).completionPromise = some s) := by
  refine ⟨by simp [activate, resolvePromise], rfl, ?_, ?_⟩
  · intro h
    simp [activate, resolvePromise, h]
  · intro h1 h2
    simp [activate, resolvePromise, h1, h2]

/-- Witness for C6: the case-variant "NoNe" collapses to null while the
ordinary phrase DONE is stored as-is. -/
theorem claim_C6_witness :
    (activate "p" (PromiseArg.str "NoNe") 0 false).completionPromise = none ∧
    (activate "p" (PromiseArg.str "DONE") 0 false).completionPromise = some "DONE" :=
  ⟨(claim_C6 "p" 0 false "NoNe").2.2.1 (by decide),
   (claim_C6 "p" 0 false "DONE").2.2.2 (by decide) (by decide)⟩

/-- Counterexample to C4 as stated: with one required key missing, the
denial reason is the singular "Missing required parameter: path", not the
claimed literal "Missing required parameter(s): " prefix. -/
theorem claim_C4_counterexample :
    decideApproval envMissing approvalW =
      .deny approvalW "Missing required parameter: path" ∧
    decideApproval envMissing approvalW ≠
      .deny approvalW "Missing required parameter(s): path" := by
  decide

/-- Claim C4 (amended): arbitration maps each pending approval, in input
order, to exactly one decision; a failed JSON parse of the raw arguments
is replaced by the empty argument map; an arbiter deny yields a denial
with reason "Permission denied: " followed by the matched rule or reason;
an arbiter ask yields a denial with the fixed requires-approval reason (no
dependence on the unrestricted flag, which the arbitration loop never
reads); an arbiter allow with required arguments missing or null yields a
denial whose reason is "Missing required parameter" — pluralized by the
count of missing keys, not the literal "(s)" — a colon, and the
comma-joined missing keys; otherwise the approval is approved. -/
theorem claim_C4 (env : Env) (approvals : List PendingApproval)
    (a : PendingApproval) (parsed : ArgMap) :
    (resolveApprovals env approvals = approvals.map (decideApproval env))
    ∧ ((resolveApprovals env approvals).length = approvals.length)
    ∧ (env.parseJson a.toolArgs = none → decideApproval env a = decideWithArgs env a [])
    ∧ ((env.checkToolPermission a.toolName parsed).decision = .deny →
        decideWithArgs env a parsed = .deny a ("Permission denied: " ++
          jsOrDisplay (env.checkToolPermission a.toolName parsed).matchedRule
            (env.checkToolPermission a.toolName parsed).reason))
    ∧ ((env.checkToolPermission a.toolName parsed).decision = .ask →
        decideWithArgs env a parsed = .deny a ralphDenyReason)
    ∧ ((env.checkToolPermission a.toolName parsed).decision = .allow →
        ((env.requiredArgsOf a.toolName).filter (fun k => argIsMissing parsed k) = [] →
          decideWithArgs env a parsed = .approve a)
        ∧ ((env.requiredArgsOf a.toolName).filter (fun k => argIsMissing parsed k) ≠ [] →
            decideWithArgs env a parsed = .deny a
              (missingReason
                ((env.requiredArgsOf a.toolName).filter (fun k => argIsMissing parsed k))))) := by
  refine ⟨rfl, by simp [resolveApprovals], ?_, ?_, ?_, ?_⟩
  · intro h
    simp [decideApproval, h]
  · intro h
    simp only [decideWithArgs]
    rw [h]
  · intro h
    simp only [decideWithArgs]
    rw [h]
  · intro h
    constructor
    · intro hmiss
      simp only [decideWithArgs]
      rw [h]
      simp [hmiss]
    · intro hmiss
      have hlen : 0 < ((env.requiredArgsOf a.toolName).filter
          (fun k => argIsMissing parsed k)).length := List.length_pos.mpr hmiss
      simp only [decideWithArgs]
      rw [h]
      simp [hlen, Nat.pos_iff_ne_zero.mp hlen]

/-- Witness for C4: a concrete ask outcome denies with the fixed reason,
and a failed parse falls back to the empty argument map. -/
theorem claim_C4_witness :
    decideWithArgs envAsk approvalW [] = .deny approvalW ralphDenyReason ∧
    decideApproval envAsk approvalW = decideWithArgs envAsk approvalW [] :=
  ⟨(claim_C4 envAsk [] approvalW []).2.2.2.2.1 rfl,
   (claim_C4 envAsk [] approvalW []).2.2.1 rfl⟩

/-- Claim C10: before any turn is sent, the handler denies every
pre-existing pending approval batch — each approval denied with the fixed
reason "Tool requires approval (Ralph CLI mode)" — looping until a
retrieval comes back empty; the event trace is exactly those denial
batches followed by the loop's events, all of which are sends, so the
initial task message is never sent while a pre-existing pending approval
is outstanding. -/
theorem claim_C10 (env : Env) (prompt : String) (parg : PromiseArg) (cap : Int)
    (yolo : Bool) (ps : List (List PendingApproval)) (ts : List TurnResult) :
    (handleRalphCommand env prompt parg cap yolo ps ts =
      ((ps.takeWhile (fun b => !b.isEmpty)).map
          (fun b => Event.denyPendingBatch (b.map (fun a => Decision.deny a ralphDenyReason)))
        ++ (runLoop env prompt (activate prompt parg cap yolo)
              (.userMsg (buildRalphFirstTurnReminder (activate prompt parg cap yolo) ++
                "\n\n" ++ prompt)) ts).1,
       (runLoop env prompt (activate prompt parg cap yolo)
          (.userMsg (buildRalphFirstTurnReminder (activate prompt parg cap yolo) ++
            "\n\n" ++ prompt)) ts).2))
    ∧ (runLoop env prompt (activate prompt parg cap yolo)
        (.userMsg (buildRalphFirstTurnReminder (activate prompt parg cap yolo) ++
          "\n\n" ++ prompt)) ts).1.all isSendEvent = true := by
  constructor
  · simp only [handleRalphCommand, clearPendingLoop_eq, List.map_map]
    rfl
  · exact runLoop_all_send ts env prompt _ _

set_option maxRecDepth 20000 in
/-- Counterexample to C1 as stated: with iterationCap 3, a non-matching
phrase and three end-turn turns available, the controller sends only two
turns (it never consumes the third), exits with the cap-reached code 1
after the second turn, and currentIteration is 3 at exit. -/
theorem claim_C1_counterexample :
    (runLoop envAllow "task" (activate "task" (PromiseArg.str "DONE") 3 false)
        (.userMsg "m") [rEnd, rEnd, rEnd]).1.length = 2 ∧
    (runLoop envAllow "task" (activate "task" (PromiseArg.str "DONE") 3 false)
        (.userMsg "m") [rEnd, rEnd, rEnd]).2 =
      .exited 1 { activate "task" (PromiseArg.str "DONE") 3 false with currentIteration := 3 } ∧
    runLoop envAllow "task" (activate "task" (PromiseArg.str "DONE") 3 false)
        (.userMsg "m") [rEnd, rEnd, rEnd] =
      runLoop envAllow "task" (activate "task" (PromiseArg.str "DONE") 3 false)
        (.userMsg "m") [rEnd, rEnd] := by
  decide

/-- Claim C1 (amended): for a run activated with iterationCap 3, a
completion phrase no turn matches, and end-turn turns, the controller
executes only two turns — shouldContinue is already false once
currentIteration reaches 3 — and then returns the cap-reached exit code 1
with currentIteration equal to 3 at exit; a third scripted turn is never
consumed. -/
theorem claim_C1 (env : Env) (prompt msg : String) (parg : PromiseArg) (yolo : Bool)
    (r1 r2 r3 : TurnResult)
    (h1 : r1.stopReason = .endTurn) (h2 : r2.stopReason = .endTurn)
    (hm1 : turnMatches (activate prompt parg 3 yolo) r1 = false)
    (hm2 : turnMatches (activate prompt parg 3 yolo) r2 = false) :
    runLoop env prompt (activate prompt parg 3 yolo) (.userMsg msg) [r1, r2, r3] =
      ([Event.send (.userMsg msg),
        Event.send (.userMsg (buildRalphContinuationReminder
          (incrementIteration (activate prompt parg 3 yolo)) ++ "\n\n" ++ prompt))],
       .exited 1 { activate prompt parg 3 yolo with currentIteration := 3 })
    ∧ runLoop env prompt (activate prompt parg 3 yolo) (.userMsg msg) [r1, r2, r3] =
      runLoop env prompt (activate prompt parg 3 yolo) (.userMsg msg) [r1, r2] := by
  have hm2' : turnMatches (incrementIteration (activate prompt parg 3 yolo)) r2 = false := by
    rw [turnMatches_incrementIteration]; exact hm2
  have hsc1 : shouldContinue (activate prompt parg 3 yolo) = true := by
    simp [shouldContinue, activate]
  have hsc2 : shouldContinue (incrementIteration (activate prompt parg 3 yolo)) = true := by
    simp [shouldContinue, activate, incrementIteration]
  have hsc3 : shouldContinue
      (incrementIteration (incrementIteration (activate prompt parg 3 yolo))) = false := by
    simp [shouldContinue, activate, incrementIteration]
  have e1 : loopStep env prompt (activate prompt parg 3 yolo) r1 =
      .continueWith (incrementIteration (activate prompt parg 3 yolo))
        (.userMsg (buildRalphContinuationReminder
          (incrementIteration (activate prompt parg 3 yolo)) ++ "\n\n" ++ prompt)) := by
    simp [loopStep, hm1, h1]
  have e2 : loopStep env prompt (incrementIteration (activate prompt parg 3 yolo)) r2 =
      .continueWith (incrementIteration (incrementIteration (activate prompt parg 3 yolo)))
        (.userMsg (buildRalphContinuationReminder
          (incrementIteration (incrementIteration (activate prompt parg 3 yolo))) ++
            "\n\n" ++ prompt)) := by
    simp [loopStep, hm2', h2]
  have hfinal : incrementIteration (incrementIteration (activate prompt parg 3 yolo)) =
      { activate prompt parg 3 yolo with currentIteration := 3 } := by
    simp [incrementIteration, activate]
  have main3 : runLoop env prompt (activate prompt parg 3 yolo) (.userMsg msg) [r1, r2, r3] =
      ([Event.send (.userMsg msg),
        Event.send (.userMsg (buildRalphContinuationReminder
          (incrementIteration (activate prompt parg 3 yolo)) ++ "\n\n" ++ prompt))],
       .exited 1 { activate prompt parg 3 yolo with currentIteration := 3 }) := by
    simp only [runLoop, hsc1, hsc2, hsc3, e1, e2, if_true, if_false, Bool.false_eq_true]
    rw [hfinal]
  have main2 : runLoop env prompt (activate prompt parg 3 yolo) (.userMsg msg) [r1, r2] =
      ([Event.send (.userMsg msg),
        Event.send (.userMsg (buildRalphContinuationReminder
          (incrementIteration (activate prompt parg 3 yolo)) ++ "\n\n" ++ prompt))],
       .exited 1 { activate prompt parg 3 yolo with currentIteration := 3 }) := by
    simp only [runLoop, hsc1, hsc2, hsc3, e1, e2, if_true, if_false, Bool.false_eq_true]
    rw [hfinal]
  exact ⟨main3, main3.trans main2.symm⟩

/-- Witness for C1: the concrete cap-3 run with non-matching end-turn
turns never consumes its third scripted turn. -/
theorem claim_C1_witness :
    runLoop envAllow "task" (activate "task" (PromiseArg.str "DONE") 3 false)
        (.userMsg "m") [rEnd, rEnd, rEnd] =
      runLoop envAllow "task" (activate "task" (PromiseArg.str "DONE") 3 false)
        (.userMsg "m") [rEnd, rEnd] :=
  (claim_C1 envAllow "task" "m" (PromiseArg.str "DONE") false rEnd rEnd rEnd
    rfl rfl (by decide) (by decide)).2

/-- Counterexample to C9 as stated: a run that completes successfully
returns with the loop state exactly as it was at the moment of exit —
still active, not the deactivated zero state — because handleRalphCommand
never calls deactivate. -/
theorem claim_C9_counterexample :
    (handleRalphCommand envAllow "task" (PromiseArg.str "DONE") 0 false [] [rDone]).2 =
      .exited 0 (activate "task" (PromiseArg.str "DONE") 0 false) ∧
    (activate "task" (PromiseArg.str "DONE") 0 false).isActive = true ∧
    activate "task" (PromiseArg.str "DONE") 0 false ≠ RalphState.deactivated := by
  decide

/-- Claim C9 (amended): deactivate() resets the state to the zero state
and is idempotent, but the CLI controller never calls it: on every
terminal exit (success, cap exhaustion or error) the returned loop state
is the state at the moment of exit, still active and distinct from the
deactivated zero state. -/
theorem claim_C9 :
    (∀ s : RalphState, deactivate s = RalphState.deactivated)
    ∧ (∀ s : RalphState, deactivate (deactivate s) = deactivate s)
    ∧ (∀ (env : Env) (prompt : String) (parg : PromiseArg) (cap : Int) (yolo : Bool)
        (ps : List (List PendingApproval)) (ts : List TurnResult) (code : Int)
        (fs : RalphState),
      (handleRalphCommand env prompt parg cap yolo ps ts).2 = .exited code fs →
      fs.isActive = true ∧ fs ≠ RalphState.deactivated) := by
  refine ⟨fun _ => rfl, fun _ => rfl, ?_⟩
  intro env prompt parg cap yolo ps ts code fs h
  have h' : (runLoop env prompt (activate prompt parg cap yolo)
      (.userMsg (buildRalphFirstTurnReminder (activate prompt parg cap yolo) ++
        "\n\n" ++ prompt)) ts).2 = .exited code fs := h
  have hact : fs.isActive = true :=
    runLoop_exited_active ts env prompt (activate prompt parg cap yolo) _ rfl code fs h'
  refine ⟨hact, ?_⟩
  intro heq
  rw [heq] at hact
  cases hact

/-- Witness for C9: a concrete run that exhausts a cap of 1 without
sending a single turn still returns an active, non-zero state. -/
theorem claim_C9_witness :
    (activate "w" PromiseArg.null 1 false).isActive = true ∧
    activate "w" PromiseArg.null 1 false ≠ RalphState.deactivated :=
  claim_C9.2.2 envAllow "w" PromiseArg.null 1 false [] [] 1
    (activate "w" PromiseArg.null 1 false) (by decide)

/-- Counterexample to C5 as stated: for the phrase that is itself the
closing tag, wrapping it in promise tags does not match — the scan takes
the first closing tag, so the extracted content is empty and differs from
the phrase. -/
theorem claim_C5_counterexample :
    matchesPromise (some "</promise>")
      ("<promise>" ++ "</promise>" ++ "</promise>") = false := by
  decide

/-- Claim C5 (amended): for every phrase containing no case-insensitive
occurrence of the closing tag, wrapping any whitespace variant of the
phrase (same whitespace normalization, still free of the closing tag) in
a promise tag pair yields a match, because extraction returns the content verbatim
and both sides are normalized identically before a case-sensitive exact
comparison; the tags themselves are matched case-insensitively, as the
upper-case variant shows. -/
theorem claim_C5 (phrase c : String)
    (hc : findSub closeTagL (lowerChars c.data) = none)
    (hn : normalizeWs c = normalizeWs phrase) :
    matchesPromise (some phrase) ("<promise>" ++ c ++ "</promise>") = true ∧
    matchesPromise (some phrase) ("<PROMISE>" ++ c ++ "</PROMISE>") = true := by
  constructor
  · have he := extract_of_wrapped "<promise>" c "</promise>" (by decide) (by decide) hc
    simp only [matchesPromise, he, hn, beq_self_eq_true]
  · have he := extract_of_wrapped "<PROMISE>" c "</PROMISE>" (by decide) (by decide) hc
    simp only [matchesPromise, he, hn, beq_self_eq_true]

/-- Witness for C5: a concrete phrase wrapped with extra internal
whitespace and newlines still matches. -/
theorem claim_C5_witness :
    matchesPromise (some "Task is complete")
      ("<promise>" ++ "  Task   is\ncomplete  " ++ "</promise>") = true :=
  (claim_C5 "Task is complete" "  Task   is\ncomplete  " (by decide) (by decide)).1

end Ralph
